import Mathlib

/-!
Shallow embedding of the `imxrt-iomuxc` core (src/lib.rs and src/pwm.rs):
pad identities, type erasure and recovery, and the IOMUXC register
operations, modelled as explicit state passing over a word-addressed
memory together with a trace of the volatile accesses each operation
performs.
-/

/-- Word-addressed register memory: each address holds a 32-bit word,
represented as a natural number (register contents are `< 2 ^ 32`). -/
def Mem : Type := Nat → Nat

/-- One volatile access: `ptr::read_volatile` or `ptr::write_volatile`. -/
inductive Event : Type where
  | read (addr : Nat) (value : Nat) : Event
  | write (addr : Nat) (value : Nat) : Event
deriving DecidableEq, Repr

/-- The address an access touches. -/
def Event.addr : Event → Nat
  | .read a _ => a
  | .write a _ => a

/-- Store a word at an address. -/
def writeMem (m : Mem) (a v : Nat) : Mem :=
  fun x => if x = a then v else m x

/-- The static data behind `Pad<Base, Offset>` (lib.rs 309): `Base::mux_base()`,
`Base::pad_base()` and `Offset::USIZE`. The Rust value is zero-sized; the two
type parameters carry exactly this information, so the embedding represents a
compile-time pad identity by it. -/
structure Pad : Type where
  mux_base : Nat
  pad_base : Nat
  offset : Nat
deriving DecidableEq, Repr

/-- A type-erased pad (lib.rs 462-466): the triple of the two base
addresses and the offset, stored at run time. -/
structure ErasedPad : Type where
  mux_base : Nat
  pad_base : Nat
  offset : Nat
deriving DecidableEq, Repr

/-- The data of the `Iomuxc` trait (lib.rs 219-226): the absolute addresses
of the multiplexer register and of the pad configuration register. -/
structure Iomuxc : Type where
  mux : Nat
  pad : Nat
deriving DecidableEq, Repr

/-- The `Iomuxc` implementation for `Pad<Base, Offset>` (lib.rs 421-435):
`mux = Base::mux_base() + 4 * Offset::USIZE` and
`pad = Base::pad_base() + 4 * Offset::USIZE`. -/
def Pad.iomuxc (p : Pad) : Iomuxc :=
  ⟨p.mux_base + 4 * p.offset, p.pad_base + 4 * p.offset⟩

/-- The `Iomuxc` implementation for `ErasedPad` (lib.rs 470-480). -/
def ErasedPad.iomuxc (e : ErasedPad) : Iomuxc :=
  ⟨e.mux_base + 4 * e.offset, e.pad_base + 4 * e.offset⟩

/-- `Pad::erase` (lib.rs 348-355): package the base addresses and offset
into an `ErasedPad`. -/
def Pad.erase (p : Pad) : ErasedPad :=
  ⟨p.mux_base, p.pad_base, p.offset⟩

/-- `WrongPadError` (lib.rs 490): wraps the pad that failed to convert. -/
structure WrongPadError : Type where
  erased : ErasedPad
deriving DecidableEq, Repr

/-- `TryFrom<ErasedPad> for Pad<Base, Offset>` (lib.rs 492-508): succeed
with `Self::new()` (whose static data is the target's) iff all three stored
fields match the target's, otherwise hand the erased pad back in the error. -/
def Pad.try_from (target : Pad) (erased_pad : ErasedPad) : Except WrongPadError Pad :=
  if erased_pad.mux_base = target.mux_base ∧ erased_pad.pad_base = target.pad_base ∧
      erased_pad.offset = target.offset then
    Except.ok target
  else
    Except.error ⟨erased_pad⟩

/-- Effect-annotated rendering of `Pad::erase`: the source body only
constructs the `ErasedPad` record; it contains no volatile access, so the
state-passing form leaves the memory untouched and emits no event. -/
def Pad.eraseM (p : Pad) (m : Mem) : ErasedPad × Mem × List Event :=
  (p.erase, m, [])

/-- Effect-annotated rendering of the `TryFrom` conversion: the source body
only compares the stored fields; it contains no volatile access. -/
def Pad.try_fromM (target : Pad) (erased_pad : ErasedPad) (m : Mem) :
    Except WrongPadError Pad × Mem × List Event :=
  (target.try_from erased_pad, m, [])

/-- `SION_BIT` (lib.rs 232): `1 << 4`. -/
def SION_BIT : Nat := 1 <<< 4

/-- `ALT_MASK` (lib.rs 292): `0b1111`. -/
def ALT_MASK : Nat := 0b1111

/-- All 32 bits set: the value against which a `u32` bitwise complement is
taken. -/
def mask32 : Nat := 2 ^ 32 - 1

/-- Bitwise complement on `u32` words: `!x` in Rust. -/
def compl32 (x : Nat) : Nat := x ^^^ mask32

/-- `set_sion` (lib.rs 243-262): read the mux register, OR in `SION_BIT`,
write the word back. -/
def set_sion (i : Iomuxc) (m : Mem) : Mem × List Event :=
  let v := m i.mux
  let v2 := v ||| SION_BIT
  (writeMem m i.mux v2, [Event.read i.mux v, Event.write i.mux v2])

/-- `clear_sion` (lib.rs 273-280): read the mux register, AND with the
complement of `SION_BIT`, write the word back. -/
def clear_sion (i : Iomuxc) (m : Mem) : Mem × List Event :=
  let v := m i.mux
  let v2 := v &&& compl32 SION_BIT
  (writeMem m i.mux v2, [Event.read i.mux v, Event.write i.mux v2])

/-- `alternate` (lib.rs 291-300): read the mux register, replace the low
four bits with `alt & ALT_MASK`, write the word back. -/
def alternate (i : Iomuxc) (alt : Nat) (m : Mem) : Mem × List Event :=
  let v := m i.mux
  let v2 := (v &&& compl32 ALT_MASK) ||| (alt &&& ALT_MASK)
  (writeMem m i.mux v2, [Event.read i.mux v, Event.write i.mux v2])

/-- Modelled from the spec: the opaque electrical-configuration value of the
`config` module, which is not part of the provided sources. It only flows
into the external encoder, so its representation is irrelevant. -/
structure Config : Type where
  raw : Nat
deriving DecidableEq, Repr

/-- Modelled from the spec: `configure` of the `config` module (not among
the provided sources) encodes the configuration into the chip-specific
packed word via the external encoder and performs a single full-word write
to the configuration register, with no read and no merge. -/
def configure (encoder : Config → Nat) (i : Iomuxc) (config : Config) (m : Mem) :
    Mem × List Event :=
  let w := encoder config
  (writeMem m i.pad w, [Event.write i.pad w])

/-- `Daisy` (lib.rs 516-519): a register address paired with the value to
write there. -/
structure Daisy : Type where
  reg : Nat
  value : Nat
deriving DecidableEq, Repr

/-- `Daisy::write` (lib.rs 536-538): one unconditional volatile write of
`value` to `reg`. -/
def Daisy.write (d : Daisy) (m : Mem) : Mem × List Event :=
  (writeMem m d.reg d.value, [Event.write d.reg d.value])

namespace gpio

/-- A type implementing `gpio::Pin` (lib.rs 544-551): its `Iomuxc` data,
the `ALT` constant and the role constants `Module` and `Offset`. -/
structure Pin : Type where
  pad : Iomuxc
  ALT : Nat
  Module : Nat
  Offset : Nat
deriving DecidableEq, Repr

/-- `gpio::prepare` (lib.rs 554-556): apply the generic `alternate`
operation with the contract's `ALT` constant. -/
def prepare (pin : Pin) (m : Mem) : Mem × List Event :=
  alternate pin.pad pin.ALT m

end gpio

namespace pwm

/-- The `Output` marker (pwm.rs 4-11): one of `A` or `B`. -/
inductive Output : Type where
  | A : Output
  | B : Output
deriving DecidableEq, Repr

/-- A type implementing `pwm::Pin` (pwm.rs 20-29): its IOMUX data, the
`ALT` constant, the output leg, and the `MODULE` / `SUBMODULE` constants. -/
structure Pin : Type where
  pad : Iomuxc
  ALT : Nat
  Output : Output
  MODULE : Nat
  SUBMODULE : Nat
deriving DecidableEq, Repr

/-- `pwm::prepare` (pwm.rs 36-38): apply the generic `alternate` operation
with the contract's `ALT` constant. -/
def prepare (pin : Pin) (m : Mem) : Mem × List Event :=
  alternate pin.pad pin.ALT m

end pwm

/-! ### Bit-level helper lemmas -/

theorem testBit_mask32 (j : Nat) : mask32.testBit j = decide (j < 32) :=
  Nat.testBit_two_pow_sub_one 32 j

theorem testBit_compl32 (x j : Nat) :
    (compl32 x).testBit j = ((x.testBit j).xor (decide (j < 32))) := by
  simp [compl32, Nat.testBit_xor, testBit_mask32]

theorem testBit_SION_BIT (j : Nat) : SION_BIT.testBit j = decide (j = 4) := by
  have hs : SION_BIT = 2 ^ 4 := by decide
  rw [hs, Nat.testBit_two_pow]
  simp [eq_comm]

theorem testBit_ALT_MASK (j : Nat) : ALT_MASK.testBit j = decide (j < 4) := by
  have hs : ALT_MASK = 2 ^ 4 - 1 := by decide
  rw [hs, Nat.testBit_two_pow_sub_one]

theorem testBit_high {v : Nat} (h : v < 2 ^ 32) {j : Nat} (hj : 32 ≤ j) :
    v.testBit j = false :=
  Nat.testBit_lt_two_pow (lt_of_lt_of_le h (Nat.pow_le_pow_right (by norm_num) hj))

theorem testBit_alt_word (v alt j : Nat) :
    (((v &&& compl32 ALT_MASK) ||| (alt &&& ALT_MASK)).testBit j) =
      if j < 4 then alt.testBit j else (v.testBit j && decide (j < 32)) := by
  simp only [Nat.testBit_or, Nat.testBit_and, testBit_compl32, testBit_ALT_MASK]
  by_cases h4 : j < 4
  · have h32 : j < 32 := by omega
    simp [h4, h32]
  · by_cases h32 : j < 32 <;> simp [h4, h32]

theorem testBit_set_word (v j : Nat) :
    ((v ||| SION_BIT).testBit j) = (v.testBit j || decide (j = 4)) := by
  simp [Nat.testBit_or, testBit_SION_BIT]

theorem testBit_clear_word (v j : Nat) :
    ((v &&& compl32 SION_BIT).testBit j) =
      (v.testBit j && (!decide (j = 4) && decide (j < 32))) := by
  simp only [Nat.testBit_and, testBit_compl32, testBit_SION_BIT]
  by_cases h4 : j = 4
  · subst h4; simp
  · by_cases h32 : j < 32 <;> simp [h4, h32]

/-! ### Claim theorems -/

/-- C1: erasing a pad identity and recovering it against the same static
(Base, Offset) succeeds, and the recovered identity computes the same
multiplexer and configuration register addresses and carries the same
index as the original. -/
theorem C1_erase_recover_roundtrip (p : Pad) :
    ∃ r : Pad, p.try_from p.erase = Except.ok r ∧
      r.iomuxc.mux = p.iomuxc.mux ∧ r.iomuxc.pad = p.iomuxc.pad ∧
      r.offset = p.offset := by
  refine ⟨p, ?_, rfl, rfl, rfl⟩
  simp [Pad.try_from, Pad.erase]

/-- C2: recovering an erased pad against a static pad whose stored triple
(mux base, pad base, offset) differs returns a `WrongPadError` carrying the
input erased pad with all three fields unchanged. -/
theorem C2_recover_mismatch (target : Pad) (e : ErasedPad)
    (h : ¬(e.mux_base = target.mux_base ∧ e.pad_base = target.pad_base ∧
        e.offset = target.offset)) :
    target.try_from e = Except.error (WrongPadError.mk e) ∧
      (WrongPadError.mk e).erased.mux_base = e.mux_base ∧
      (WrongPadError.mk e).erased.pad_base = e.pad_base ∧
      (WrongPadError.mk e).erased.offset = e.offset := by
  refine ⟨?_, rfl, rfl, rfl⟩
  simp [Pad.try_from, h]

/-- Witness for C2, mirroring the repository's own failing-conversion test
(same base, offsets 0 versus 1). -/
theorem C2_recover_mismatch_witness :
    (¬((ErasedPad.mk 0x1000 0x2000 1).mux_base = (Pad.mk 0x1000 0x2000 0).mux_base ∧
        (ErasedPad.mk 0x1000 0x2000 1).pad_base = (Pad.mk 0x1000 0x2000 0).pad_base ∧
        (ErasedPad.mk 0x1000 0x2000 1).offset = (Pad.mk 0x1000 0x2000 0).offset)) ∧
    ((Pad.mk 0x1000 0x2000 0).try_from (ErasedPad.mk 0x1000 0x2000 1) =
        Except.error (WrongPadError.mk (ErasedPad.mk 0x1000 0x2000 1)) ∧
      (WrongPadError.mk (ErasedPad.mk 0x1000 0x2000 1)).erased.mux_base =
        (ErasedPad.mk 0x1000 0x2000 1).mux_base ∧
      (WrongPadError.mk (ErasedPad.mk 0x1000 0x2000 1)).erased.pad_base =
        (ErasedPad.mk 0x1000 0x2000 1).pad_base ∧
      (WrongPadError.mk (ErasedPad.mk 0x1000 0x2000 1)).erased.offset =
        (ErasedPad.mk 0x1000 0x2000 1).offset) :=
  ⟨by decide, C2_recover_mismatch (Pad.mk 0x1000 0x2000 0) (ErasedPad.mk 0x1000 0x2000 1) (by decide)⟩

/-- C3: a pad's multiplexer register address is `mux_base + 4 * offset` and
its configuration register address is `pad_base + 4 * offset`, for the
compile-time and the erased representation alike; in particular the group
(0x1000, 0x2000) at index 3 gives 0x100C and 0x200C. -/
theorem C3_register_addresses (p : Pad) (e : ErasedPad) :
    p.iomuxc.mux = p.mux_base + 4 * p.offset ∧
    p.iomuxc.pad = p.pad_base + 4 * p.offset ∧
    e.iomuxc.mux = e.mux_base + 4 * e.offset ∧
    e.iomuxc.pad = e.pad_base + 4 * e.offset ∧
    (Pad.mk 0x1000 0x2000 3).iomuxc.mux = 0x100C ∧
    (Pad.mk 0x1000 0x2000 3).iomuxc.pad = 0x200C ∧
    (ErasedPad.mk 0x1000 0x2000 3).iomuxc.mux = 0x100C ∧
    (ErasedPad.mk 0x1000 0x2000 3).iomuxc.pad = 0x200C :=
  ⟨rfl, rfl, rfl, rfl, by decide, by decide, by decide, by decide⟩

/-- C4: `alternate` replaces exactly the low four bits of the multiplexer
register with `alt & 0b1111`, leaves every other bit (including bit 4,
SION) and every other address unchanged, silently truncates values outside
0-15, and in particular turns 0x00000010 into 0x00000019 for alternate
value 9. -/
theorem C4_alternate_field_update (i : Iomuxc) (m : Mem) (alt : Nat)
    (h : m i.mux < 2 ^ 32) :
    (∀ j, 4 ≤ j → ((alternate i alt m).1 i.mux).testBit j = (m i.mux).testBit j) ∧
    (∀ j, j < 4 → ((alternate i alt m).1 i.mux).testBit j = alt.testBit j) ∧
    alternate i alt m = alternate i (alt % 16) m ∧
    (∀ a, a ≠ i.mux → (alternate i alt m).1 a = m a) ∧
    (alternate i 9 (fun _ => 0x10)).1 i.mux = 0x19 := by
  have hw : (alternate i alt m).1 i.mux =
      (m i.mux &&& compl32 ALT_MASK) ||| (alt &&& ALT_MASK) := by
    simp [alternate, writeMem]
  refine ⟨?_, ?_, ?_, ?_, ?_⟩
  · intro j hj
    rw [hw, testBit_alt_word, if_neg (by omega)]
    by_cases h32 : j < 32
    · simp [h32]
    · have hhi : (m i.mux).testBit j = false := testBit_high h (by omega)
      simp [h32, hhi]
  · intro j hj
    rw [hw, testBit_alt_word, if_pos hj]
  · have hmask : ∀ x : Nat, x &&& ALT_MASK = x % 16 := by
      intro x
      have hx := Nat.and_pow_two_sub_one_eq_mod x 4
      norm_num at hx
      simpa [ALT_MASK] using hx
    have halt : alt &&& ALT_MASK = alt % 16 &&& ALT_MASK := by
      rw [hmask, hmask]; omega
    simp [alternate, halt]
  · intro a ha
    simp [alternate, writeMem, ha]
  · simp [alternate, writeMem]
    decide

/-- Witness for C4 at the spec's concrete scenario: alternate value 9 on a
mux register holding 0x00000010. -/
theorem C4_alternate_field_update_witness :
    ((fun _ => 0x10 : Mem) (Iomuxc.mk 0 0).mux < 2 ^ 32) ∧
    ((∀ j, 4 ≤ j → ((alternate (Iomuxc.mk 0 0) 9 (fun _ => 0x10)).1 (Iomuxc.mk 0 0).mux).testBit j =
        ((fun _ => 0x10 : Mem) (Iomuxc.mk 0 0).mux).testBit j) ∧
      (∀ j, j < 4 → ((alternate (Iomuxc.mk 0 0) 9 (fun _ => 0x10)).1 (Iomuxc.mk 0 0).mux).testBit j =
        (9 : Nat).testBit j) ∧
      alternate (Iomuxc.mk 0 0) 9 (fun _ => 0x10) = alternate (Iomuxc.mk 0 0) (9 % 16) (fun _ => 0x10) ∧
      (∀ a, a ≠ (Iomuxc.mk 0 0).mux →
        (alternate (Iomuxc.mk 0 0) 9 (fun _ => 0x10)).1 a = (fun _ => 0x10 : Mem) a) ∧
      (alternate (Iomuxc.mk 0 0) 9 (fun _ => 0x10)).1 (Iomuxc.mk 0 0).mux = 0x19) :=
  ⟨by decide, C4_alternate_field_update (Iomuxc.mk 0 0) (fun _ => 0x10) 9 (by decide)⟩

/-- C5: set_sion then clear_sion leaves bit 4 clear, clear_sion then
set_sion leaves bit 4 set, both orders leave every other bit of the
multiplexer register untouched; when bit 4 initially held the value the
sequence restores (clear for set-then-clear, set for clear-then-set) the
whole memory is restored exactly; and each operation is idempotent — the
second application changes no register. -/
theorem C5_sion_set_clear_algebra (i : Iomuxc) (m : Mem) (h : m i.mux < 2 ^ 32) :
    (∀ j, j ≠ 4 →
      ((clear_sion i (set_sion i m).1).1 i.mux).testBit j = (m i.mux).testBit j) ∧
    (∀ j, j ≠ 4 →
      ((set_sion i (clear_sion i m).1).1 i.mux).testBit j = (m i.mux).testBit j) ∧
    ((clear_sion i (set_sion i m).1).1 i.mux).testBit 4 = false ∧
    ((set_sion i (clear_sion i m).1).1 i.mux).testBit 4 = true ∧
    ((m i.mux).testBit 4 = false → (clear_sion i (set_sion i m).1).1 = m) ∧
    ((m i.mux).testBit 4 = true → (set_sion i (clear_sion i m).1).1 = m) ∧
    (set_sion i (set_sion i m).1).1 = (set_sion i m).1 ∧
    (clear_sion i (clear_sion i m).1).1 = (clear_sion i m).1 := by
  have hsc : (clear_sion i (set_sion i m).1).1 i.mux =
      (m i.mux ||| SION_BIT) &&& compl32 SION_BIT := by
    simp [set_sion, clear_sion, writeMem]
  have hcs : (set_sion i (clear_sion i m).1).1 i.mux =
      (m i.mux &&& compl32 SION_BIT) ||| SION_BIT := by
    simp [set_sion, clear_sion, writeMem]
  refine ⟨?_, ?_, ?_, ?_, ?_, ?_, ?_, ?_⟩
  · intro j hj
    rw [hsc, testBit_clear_word, testBit_set_word]
    by_cases h32 : j < 32
    · simp [hj, h32]
    · have hhi : (m i.mux).testBit j = false := testBit_high h (by omega)
      simp [hj, h32, hhi]
  · intro j hj
    rw [hcs, testBit_set_word, testBit_clear_word]
    by_cases h32 : j < 32
    · simp [hj, h32]
    · have hhi : (m i.mux).testBit j = false := testBit_high h (by omega)
      simp [hj, h32, hhi]
  · rw [hsc, testBit_clear_word]
    simp
  · rw [hcs, testBit_set_word]
    simp
  · intro hb
    funext x
    by_cases hx : x = i.mux
    · subst hx
      rw [hsc]
      apply Nat.eq_of_testBit_eq
      intro j
      rw [testBit_clear_word, testBit_set_word]
      by_cases h4 : j = 4
      · subst h4; simp [hb]
      · by_cases h32 : j < 32
        · simp [h4, h32]
        · have hhi : (m i.mux).testBit j = false := testBit_high h (by omega)
          simp [h4, h32, hhi]
    · simp [set_sion, clear_sion, writeMem, hx]
  · intro hb
    funext x
    by_cases hx : x = i.mux
    · subst hx
      rw [hcs]
      apply Nat.eq_of_testBit_eq
      intro j
      rw [testBit_set_word, testBit_clear_word]
      by_cases h4 : j = 4
      · subst h4; simp [hb]
      · by_cases h32 : j < 32
        · simp [h4, h32]
        · have hhi : (m i.mux).testBit j = false := testBit_high h (by omega)
          simp [h4, h32, hhi]
    · simp [set_sion, clear_sion, writeMem, hx]
  · funext x
    by_cases hx : x = i.mux
    · subst hx
      simp [set_sion, writeMem, Nat.or_assoc]
    · simp [set_sion, writeMem, hx]
  · funext x
    by_cases hx : x = i.mux
    · subst hx
      simp [clear_sion, writeMem, Nat.and_assoc]
    · simp [clear_sion, writeMem, hx]

/-- Witness for C5 at a concrete pad and register word. -/
theorem C5_sion_set_clear_algebra_witness :
    ((fun _ => 0x10 : Mem) (Iomuxc.mk 0 0).mux < 2 ^ 32) ∧
    ((∀ j, j ≠ 4 →
        ((clear_sion (Iomuxc.mk 0 0) (set_sion (Iomuxc.mk 0 0) (fun _ => 0x10)).1).1 (Iomuxc.mk 0 0).mux).testBit j =
          ((fun _ => 0x10 : Mem) (Iomuxc.mk 0 0).mux).testBit j) ∧
      (∀ j, j ≠ 4 →
        ((set_sion (Iomuxc.mk 0 0) (clear_sion (Iomuxc.mk 0 0) (fun _ => 0x10)).1).1 (Iomuxc.mk 0 0).mux).testBit j =
          ((fun _ => 0x10 : Mem) (Iomuxc.mk 0 0).mux).testBit j) ∧
      ((clear_sion (Iomuxc.mk 0 0) (set_sion (Iomuxc.mk 0 0) (fun _ => 0x10)).1).1 (Iomuxc.mk 0 0).mux).testBit 4 = false ∧
      ((set_sion (Iomuxc.mk 0 0) (clear_sion (Iomuxc.mk 0 0) (fun _ => 0x10)).1).1 (Iomuxc.mk 0 0).mux).testBit 4 = true ∧
      (((fun _ => 0x10 : Mem) (Iomuxc.mk 0 0).mux).testBit 4 = false →
        (clear_sion (Iomuxc.mk 0 0) (set_sion (Iomuxc.mk 0 0) (fun _ => 0x10)).1).1 = (fun _ => 0x10 : Mem)) ∧
      (((fun _ => 0x10 : Mem) (Iomuxc.mk 0 0).mux).testBit 4 = true →
        (set_sion (Iomuxc.mk 0 0) (clear_sion (Iomuxc.mk 0 0) (fun _ => 0x10)).1).1 = (fun _ => 0x10 : Mem)) ∧
      (set_sion (Iomuxc.mk 0 0) (set_sion (Iomuxc.mk 0 0) (fun _ => 0x10)).1).1 =
        (set_sion (Iomuxc.mk 0 0) (fun _ => 0x10)).1 ∧
      (clear_sion (Iomuxc.mk 0 0) (clear_sion (Iomuxc.mk 0 0) (fun _ => 0x10)).1).1 =
        (clear_sion (Iomuxc.mk 0 0) (fun _ => 0x10)).1) :=
  ⟨by decide, C5_sion_set_clear_algebra (Iomuxc.mk 0 0) (fun _ => 0x10) (by decide)⟩

/-- C6: committing a Daisy selector performs exactly one write, of the
stored value to the stored register address, with no read and no access to
any other address; in particular address 0x3008 with value 2 produces
exactly the single write of 0x2 to 0x3008. -/
theorem C6_daisy_single_write (d : Daisy) (m : Mem) :
    (d.write m).2 = [Event.write d.reg d.value] ∧
    (d.write m).1 d.reg = d.value ∧
    (∀ a, (d.write m).1 a = if a = d.reg then d.value else m a) ∧
    ((Daisy.mk 0x3008 2).write (fun _ => 0)).2 = [Event.write 0x3008 2] ∧
    ((Daisy.mk 0x3008 2).write (fun _ => 0)).1 0x3008 = 2 := by
  refine ⟨rfl, ?_, fun a => rfl, rfl, by decide⟩
  simp [Daisy.write, writeMem]

/-- C7: `configure` calls the external encoder once and performs a single
full-word write of exactly the encoder's output to the configuration
register: no read, no merge with prior contents, and the written word does
not depend on the register's previous value. -/
theorem C7_configure_single_full_write (encoder : Config → Nat) (i : Iomuxc)
    (config : Config) (m : Mem) :
    (configure encoder i config m).2 = [Event.write i.pad (encoder config)] ∧
    (configure encoder i config m).1 i.pad = encoder config ∧
    (∀ a, (configure encoder i config m).1 a = if a = i.pad then encoder config else m a) ∧
    (∀ m2 : Mem, (configure encoder i config m2).1 i.pad =
      (configure encoder i config m).1 i.pad) := by
  refine ⟨rfl, ?_, fun a => rfl, ?_⟩
  · simp [configure, writeMem]
  · intro m2
    simp [configure, writeMem]

/-- C10: the identity conversions perform no register access: the
effect-annotated renderings of `erase` and of the `TryFrom` recovery
return the unchanged memory and an empty access trace, whether recovery
succeeds or fails. -/
theorem C10_conversions_no_access (p target : Pad) (e : ErasedPad) (m : Mem) :
    p.eraseM m = (p.erase, m, []) ∧
    target.try_fromM e m = (target.try_from e, m, []) ∧
    (∀ a, (p.eraseM m).2.1 a = m a) ∧
    (∀ a, (target.try_fromM e m).2.1 a = m a) ∧
    (p.eraseM m).2.2 = [] ∧
    (target.try_fromM e m).2.2 = [] :=
  ⟨rfl, rfl, fun _ => rfl, fun _ => rfl, rfl, rfl⟩

/-! ### Commutation of the multiplexer field updates -/

theorem alt_set_word_comm (v alt : Nat) :
    ((v &&& compl32 ALT_MASK) ||| (alt &&& ALT_MASK)) ||| SION_BIT =
      ((v ||| SION_BIT) &&& compl32 ALT_MASK) ||| (alt &&& ALT_MASK) := by
  apply Nat.eq_of_testBit_eq
  intro j
  simp only [Nat.testBit_or, Nat.testBit_and, testBit_compl32, testBit_ALT_MASK,
    testBit_SION_BIT]
  by_cases h4 : j < 4
  · have hne : j ≠ 4 := by omega
    have h32 : j < 32 := by omega
    simp [h4, hne, h32]
  · by_cases he : j = 4
    · subst he
      simp
    · by_cases h32 : j < 32 <;> simp [h4, he, h32]

theorem alt_clear_word_comm (v alt : Nat) :
    ((v &&& compl32 ALT_MASK) ||| (alt &&& ALT_MASK)) &&& compl32 SION_BIT =
      ((v &&& compl32 SION_BIT) &&& compl32 ALT_MASK) ||| (alt &&& ALT_MASK) := by
  apply Nat.eq_of_testBit_eq
  intro j
  simp only [Nat.testBit_or, Nat.testBit_and, testBit_compl32, testBit_ALT_MASK,
    testBit_SION_BIT]
  by_cases h4 : j < 4
  · have hne : j ≠ 4 := by omega
    have h32 : j < 32 := by omega
    simp [h4, hne, h32]
  · by_cases he : j = 4
    · subst he
      simp
    · by_cases h32 : j < 32 <;> simp [h4, he, h32]

/-- C9: the alternate-function field (bits 0-3) and the SION bit (bit 4)
are disjoint, so `alternate` commutes with `set_sion` and with
`clear_sion`: either order produces the same final memory, and in
particular the same final multiplexer word. -/
theorem C9_alternate_sion_commute (i : Iomuxc) (m : Mem) (alt : Nat) :
    (set_sion i (alternate i alt m).1).1 = (alternate i alt (set_sion i m).1).1 ∧
    (clear_sion i (alternate i alt m).1).1 = (alternate i alt (clear_sion i m).1).1 ∧
    (set_sion i (alternate i alt m).1).1 i.mux =
      (alternate i alt (set_sion i m).1).1 i.mux ∧
    (clear_sion i (alternate i alt m).1).1 i.mux =
      (alternate i alt (clear_sion i m).1).1 i.mux := by
  have h1 : (set_sion i (alternate i alt m).1).1 = (alternate i alt (set_sion i m).1).1 := by
    funext x
    by_cases hx : x = i.mux
    · subst hx
      simp only [set_sion, alternate, writeMem, if_pos rfl]
      exact alt_set_word_comm (m i.mux) alt
    · simp [set_sion, alternate, writeMem, hx]
  have h2 : (clear_sion i (alternate i alt m).1).1 =
      (alternate i alt (clear_sion i m).1).1 := by
    funext x
    by_cases hx : x = i.mux
    · subst hx
      simp only [set_sion, clear_sion, alternate, writeMem, if_pos rfl]
      exact alt_clear_word_comm (m i.mux) alt
    · simp [set_sion, clear_sion, alternate, writeMem, hx]
  exact ⟨h1, h2, congrFun h1 i.mux, congrFun h2 i.mux⟩

/-- C8: `gpio::prepare` and `pwm::prepare` are exactly the generic
`alternate` operation applied with the contract's `ALT` constant: every
access they make is to the pin's multiplexer register (so no Daisy
selector is committed and no other register is touched), the low four bits
of the multiplexer register end up equal to `ALT`'s low four bits, and the
SION bit is unchanged. -/
theorem C8_prepare_alt_only (p : gpio.Pin) (q : pwm.Pin) (m : Mem) :
    gpio.prepare p m = alternate p.pad p.ALT m ∧
    pwm.prepare q m = alternate q.pad q.ALT m ∧
    ((gpio.prepare p m).2.all fun ev => ev.addr == p.pad.mux) = true ∧
    ((pwm.prepare q m).2.all fun ev => ev.addr == q.pad.mux) = true ∧
    (∀ a, (gpio.prepare p m).1 a = if a = p.pad.mux then (gpio.prepare p m).1 a else m a) ∧
    (∀ a, (pwm.prepare q m).1 a = if a = q.pad.mux then (pwm.prepare q m).1 a else m a) ∧
    ((gpio.prepare p m).1 p.pad.mux) % 16 = p.ALT % 16 ∧
    ((pwm.prepare q m).1 q.pad.mux) % 16 = q.ALT % 16 ∧
    ((gpio.prepare p m).1 p.pad.mux).testBit 4 = (m p.pad.mux).testBit 4 ∧
    ((pwm.prepare q m).1 q.pad.mux).testBit 4 = (m q.pad.mux).testBit 4 := by
  have hword : ∀ (i : Iomuxc) (alt : Nat) (mm : Mem),
      (alternate i alt mm).1 i.mux =
        (mm i.mux &&& compl32 ALT_MASK) ||| (alt &&& ALT_MASK) := by
    intro i alt mm
    simp [alternate, writeMem]
  have hmod : ∀ (i : Iomuxc) (alt : Nat) (mm : Mem),
      ((alternate i alt mm).1 i.mux) % 16 = alt % 16 := by
    intro i alt mm
    rw [hword]
    have h16 : ((mm i.mux &&& compl32 ALT_MASK) ||| (alt &&& ALT_MASK)) % 2 ^ 4 =
        alt % 2 ^ 4 := by
      apply Nat.eq_of_testBit_eq
      intro j
      rw [Nat.testBit_mod_two_pow, Nat.testBit_mod_two_pow]
      by_cases h4 : j < 4
      · rw [testBit_alt_word, if_pos h4]
      · simp [h4]
    norm_num at h16
    exact h16
  have hbit4 : ∀ (i : Iomuxc) (alt : Nat) (mm : Mem),
      ((alternate i alt mm).1 i.mux).testBit 4 = (mm i.mux).testBit 4 := by
    intro i alt mm
    rw [hword, testBit_alt_word]
    simp
  have hframe : ∀ (i : Iomuxc) (alt : Nat) (mm : Mem) (a : Nat),
      (alternate i alt mm).1 a = if a = i.mux then (alternate i alt mm).1 a else mm a := by
    intro i alt mm a
    by_cases ha : a = i.mux
    · rw [if_pos ha]
    · rw [if_neg ha]
      simp [alternate, writeMem, ha]
  refine ⟨rfl, rfl, ?_, ?_, fun a => hframe _ _ _ a, fun a => hframe _ _ _ a,
    hmod _ _ _, hmod _ _ _, hbit4 _ _ _, hbit4 _ _ _⟩
  · simp [gpio.prepare, alternate, Event.addr]
  · simp [pwm.prepare, alternate, Event.addr]
